import Mathlib

/-!
Verification development for the command-line argument parser and text
layout engine of the monet-explorer tool
(`protocol_doc/monet-explorer/CommandLine.hpp`).

The C++ code is shallowly embedded: strings (`char*` / `std::string`) are
modelled as lists of byte values (`Bytes := List Nat`, each entry the
unsigned value 0..255 of one byte), `std::map` / `std::unordered_map` as
association lists whose `insert` does nothing when the key is already
present (the exact semantics of the C++ `insert` member), `std::set` as a
list with membership-tested insertion, and C control flow (including the
`goto`-driven scanning loop of `Parser::FormatLine`) as recursive
functions.  Exceptions become `Except` / explicit error constructors.

Modelling notes:
- Tokens model NUL-terminated C strings, so byte value 0 never occurs
  inside a token in the source's domain.
- `isprint` is evaluated in the default "C" locale: a byte is printable
  iff it lies in 32..126.
- `errno` is assumed to be 0 on entry to `strtol`/`strtod` (the process
  does not set it elsewhere before parsing).
-/

namespace MonetExplorer

/-- A byte string: the unsigned values (0..255) of the bytes of a C string
or `std::string`, in order. -/
abbrev Bytes := List Nat

/-- Bytes of a Lean string literal (ASCII / escape values), used to write
concrete test inputs. -/
def strB (s : String) : Bytes := s.data.map Char.toNat

/-- `isprint` in the "C" locale: printable bytes are 32..126
(space included). -/
def isprintB (b : Nat) : Bool := decide (32 ≤ b ∧ b ≤ 126)

/-- `Parser::Trim` (CommandLine.hpp:525).  The left trim skips bytes with
`!isprint(c) || c == ' '`, i.e. every byte outside 33..126.  The right
trim removes trailing bytes with `!isprint(*end) || **str == ' '`; after
the left trim the first byte is printable and not a space, so the second
disjunct is always false and only trailing non-printable bytes (outside
32..126) are removed — a trailing ordinary space survives.  The C function
edits the caller's buffer in place (it advances the pointer and writes a
NUL terminator); the model returns the resulting string value. -/
def trim (t : Bytes) : Bytes :=
  ((t.dropWhile (fun b => !(decide (33 ≤ b ∧ b ≤ 126)))).reverse.dropWhile
    (fun b => !isprintB b)).reverse

/-- `Helper::ArgumentType` (CommandLine.hpp:35). -/
inductive ArgumentType where
  | string
  | int
  | double
  | boolean
deriving DecidableEq

/-- `Helper::ArgumentClass` (CommandLine.hpp:45). -/
inductive ArgumentClass where
  | argument
  | option
  | operand
deriving DecidableEq

/-- `Helper::CommandLineArg` (CommandLine.hpp:54).  A letter value of 0
means "no single-character name".  The double default is modelled as an
exact rational (see `strtodModel`). -/
structure CommandLineArg where
  name : Bytes
  valueName : Bytes
  letter : Nat
  argClass : ArgumentClass
  argType : ArgumentType
  optional : Bool
  stringDefault : Bytes
  intDefault : Int
  doubleDefault : Rat
  description : Bytes
deriving DecidableEq

/-- The default-constructed `CommandLineArg` (CommandLine.hpp:71), used
for the parser's `lastArg` local before any argument is seen. -/
def emptyArg : CommandLineArg :=
  ⟨[], [], 0, .argument, .string, false, [], 0, 0, []⟩

/-- The Operand constructor (CommandLine.hpp:82). -/
def operandArg (name description : Bytes) : CommandLineArg :=
  ⟨name, [], 0, .operand, .string, false, [], 0, 0, description⟩

/-- The Option constructor (CommandLine.hpp:94). -/
def optionArg (name : Bytes) (letter : Nat) (description : Bytes) :
    CommandLineArg :=
  ⟨name, [], letter, .option, .boolean, false, [], 0, 0, description⟩

/-- The mandatory-argument constructor (CommandLine.hpp:109). -/
def mandatoryArg (name : Bytes) (letter : Nat) (argType : ArgumentType)
    (valueName description : Bytes) : CommandLineArg :=
  ⟨name, valueName, letter, .argument, argType, false, [], 0, 0, description⟩

/-- The optional-int-argument constructor (CommandLine.hpp:125). -/
def optionalIntArg (name : Bytes) (letter : Nat) (intDefault : Int)
    (valueName description : Bytes) : CommandLineArg :=
  ⟨name, valueName, letter, .argument, .int, true, [], intDefault, 0,
    description⟩

/-- The optional-string-argument constructor (CommandLine.hpp:141). -/
def optionalStringArg (name : Bytes) (letter : Nat) (stringDefault : Bytes)
    (valueName description : Bytes) : CommandLineArg :=
  ⟨name, valueName, letter, .argument, .string, true, stringDefault, 0, 0,
    description⟩

/-- The optional-double-argument constructor (CommandLine.hpp:158). -/
def optionalDoubleArg (name : Bytes) (letter : Nat) (doubleDefault : Rat)
    (valueName description : Bytes) : CommandLineArg :=
  ⟨name, valueName, letter, .argument, .double, true, [], 0, doubleDefault,
    description⟩

/-- Association-list lookup, modelling `std::map::find` /
`std::unordered_map::find`. -/
def alookup {α β : Type} [DecidableEq α] : List (α × β) → α → Option β
  | [], _ => none
  | (k, v) :: r, key => if k = key then some v else alookup r key

/-- `std::map::insert` / `std::unordered_map::insert`: inserts only when
the key is NOT already present; an existing entry is left untouched. -/
def ainsert {α β : Type} [DecidableEq α] (m : List (α × β)) (k : α)
    (v : β) : List (α × β) :=
  if (alookup m k).isSome then m else m ++ [(k, v)]

/-- `std::set<std::string>::insert`: adds the element when absent.  (The
C++ set is ordered; every claim observes only membership and element
multiplicity, so the insertion-ordered list is an adequate model.) -/
def setInsert (s : List Bytes) (x : Bytes) : List Bytes :=
  if x ∈ s then s else s ++ [x]

/-- `Helper::ArgumentAccumulator` (CommandLine.hpp:262): the registry of
definitions together with the value store. -/
structure Accu where
  restrictOperands : Bool
  executableName : Bytes
  argsByName : List (Bytes × CommandLineArg)
  argsByLetter : List (Nat × CommandLineArg)
  operands : List CommandLineArg
  stringValues : List (Bytes × Bytes)
  intValues : List (Bytes × Int)
  doubleValues : List (Bytes × Rat)
  optionNames : List Bytes
  operandValues : List Bytes
deriving DecidableEq

/-- The default-constructed accumulator (CommandLine.hpp:279). -/
def emptyAccu : Accu := ⟨false, [], [], [], [], [], [], [], [], []⟩

/-- Registration (setup) errors of `ArgumentAccumulator::AddArg`. -/
inductive SetupError where
  | duplicateName
  | duplicateLetter
deriving DecidableEq

/-- `ArgumentAccumulator::AddArg` (CommandLine.hpp:287): registers a
definition, failing on a duplicate long name or duplicate letter, and
pre-seeds the value maps with the default of an optional argument. -/
def addArg (a : Accu) (arg : CommandLineArg) : Except SetupError Accu :=
  if (alookup a.argsByName arg.name).isSome then .error .duplicateName
  else
    let a1 : Accu := { a with argsByName := a.argsByName ++ [(arg.name, arg)] }
    let a2 : Accu :=
      if arg.argClass = .operand then { a1 with operands := a1.operands ++ [arg] }
      else a1
    if arg.letter ≠ 0 ∧ (alookup a2.argsByLetter arg.letter).isSome then
      .error .duplicateLetter
    else
      let a3 : Accu :=
        if arg.letter ≠ 0 then
          { a2 with argsByLetter := a2.argsByLetter ++ [(arg.letter, arg)] }
        else a2
      .ok <|
        if arg.optional then
          if arg.argType = .double then
            { a3 with doubleValues := ainsert a3.doubleValues arg.name arg.doubleDefault }
          else if arg.argType = .int then
            { a3 with intValues := ainsert a3.intValues arg.name arg.intDefault }
          else
            { a3 with stringValues := ainsert a3.stringValues arg.name arg.stringDefault }
        else a3

/-- `isspace` in the "C" locale (bytes 9..13 and 32), used by `strtol` /
`strtod` to skip leading whitespace. -/
def isspaceB (b : Nat) : Bool := decide (b = 32 ∨ (9 ≤ b ∧ b ≤ 13))

/-- Decimal value of a digit string. -/
def digitsVal (ds : Bytes) : Int :=
  ds.foldl (fun acc b => acc * 10 + ((b : Int) - 48)) 0

/-- `strtol(value, &endPtr, 10)` on a 64-bit platform: skips leading
whitespace, consumes an optional sign and a run of decimal digits, clamps
to `LONG_MAX` / `LONG_MIN` setting `ERANGE` on overflow.  Returns
`(value, endIdx, rangeError)` where `endIdx` is the byte offset of
`endPtr` (0, the start of the string, when no digits were consumed). -/
def strtolModel (t : Bytes) : Int × Nat × Bool :=
  let wsLen := (t.takeWhile isspaceB).length
  let r1 := t.drop wsLen
  let signNeg : Bool := r1.headD 0 = 45
  let signLen : Nat := if r1.headD 0 = 45 ∨ r1.headD 0 = 43 then 1 else 0
  let ds := (r1.drop signLen).takeWhile (fun b => decide (48 ≤ b ∧ b ≤ 57))
  if ds.length = 0 then (0, 0, false)
  else
    let raw := digitsVal ds
    let endIdx := wsLen + signLen + ds.length
    if signNeg then
      if raw > 2 ^ 63 then (-(2 ^ 63), endIdx, true) else (-raw, endIdx, false)
    else
      if raw > 2 ^ 63 - 1 then (2 ^ 63 - 1, endIdx, true)
      else (raw, endIdx, false)

/-- The implicit `long` → `int` conversion in
`int result = strtol(...)` (CommandLine.hpp:334): two's-complement
wrap-around to 32 bits (the behavior of the targeted compilers). -/
def toInt32 (v : Int) : Int := (v + 2 ^ 31) % 2 ^ 32 - 2 ^ 31

/-- `strtod(value, &endPtr)` modelled over exact rationals: skips leading
whitespace, consumes an optional sign, a decimal mantissa (digits with an
optional fraction part) and an optional exponent (consumed only when at
least one exponent digit follows).  Overflow beyond `2^1024` sets the
range flag.  Simplifications, none observed by any claim: values are
exact rationals (no IEEE rounding, no subnormal/underflow handling), and
the hexadecimal / infinity / NaN forms are not modelled.  Returns
`(value, endIdx, rangeError)`. -/
def strtodModel (t : Bytes) : Rat × Nat × Bool :=
  let wsLen := (t.takeWhile isspaceB).length
  let r1 := t.drop wsLen
  let signNeg : Bool := r1.headD 0 = 45
  let signLen : Nat := if r1.headD 0 = 45 ∨ r1.headD 0 = 43 then 1 else 0
  let r2 := r1.drop signLen
  let intDs := r2.takeWhile (fun b => decide (48 ≤ b ∧ b ≤ 57))
  let r3 := r2.drop intDs.length
  let fracDs :=
    if r3.headD 0 = 46 then
      (r3.drop 1).takeWhile (fun b => decide (48 ≤ b ∧ b ≤ 57))
    else []
  let fracLen : Nat := if r3.headD 0 = 46 then 1 + fracDs.length else 0
  if intDs.length = 0 ∧ fracDs.length = 0 then (0, 0, false)
  else
    let mantEnd := wsLen + signLen + intDs.length + fracLen
    let r4 := t.drop mantEnd
    let expDs :=
      if r4.headD 0 = 101 ∨ r4.headD 0 = 69 then
        let r5 := r4.drop 1
        let esign : Nat := if r5.headD 0 = 45 ∨ r5.headD 0 = 43 then 1 else 0
        (r5.drop esign).takeWhile (fun b => decide (48 ≤ b ∧ b ≤ 57))
      else []
    let expLen : Nat :=
      if (r4.headD 0 = 101 ∨ r4.headD 0 = 69) ∧ expDs.length ≠ 0 then
        (if (r4.drop 1).headD 0 = 45 ∨ (r4.drop 1).headD 0 = 43 then 2 else 1)
          + expDs.length
      else 0
    let expNeg : Bool := expLen ≠ 0 ∧ (r4.drop 1).headD 0 = 45
    let mant : Rat :=
      ((digitsVal intDs * 10 ^ fracDs.length + digitsVal fracDs : Int) : Rat)
        / ((10 : Rat) ^ fracDs.length)
    let mant := if signNeg then -mant else mant
    let e := (digitsVal expDs).toNat
    let v : Rat := if expNeg then mant / 10 ^ e else mant * 10 ^ e
    (v, mantEnd + expLen, |v| ≥ 2 ^ 1024)

/-- Parse-time errors (the `std::runtime_error` messages thrown inside
`Parser::Parse` and `ArgumentAccumulator::SetValue`). -/
inductive ErrKind where
  | unknownArgument
  | syntaxError
  | unknownLetter
  | multipleArgumentsInCluster
  | tooManyOperands
  | invalidInteger
  | integerOutOfRange
  | invalidDouble
  | doubleOutOfRange
deriving DecidableEq

/-- `ArgumentAccumulator::SetValue` (CommandLine.hpp:330): converts the
value token per the argument's declared type and inserts it into the
corresponding map.  Note that the insertion uses the map's `insert`
member, which does nothing when the key is already present — in
particular when the key was pre-seeded with an optional argument's
default by `AddArg`. -/
def setValue (a : Accu) (arg : CommandLineArg) (value : Bytes) :
    Except ErrKind Accu :=
  match arg.argType with
  | .int =>
    let r := strtolModel value
    if r.2.2 then .error .integerOutOfRange
    else if r.2.1 ≠ value.length then .error .invalidInteger
    else .ok { a with intValues := ainsert a.intValues arg.name (toInt32 r.1) }
  | .double =>
    let r := strtodModel value
    if r.2.2 then .error .doubleOutOfRange
    else if r.2.1 ≠ value.length then .error .invalidDouble
    else .ok { a with doubleValues := ainsert a.doubleValues arg.name r.1 }
  | _ => .ok { a with stringValues := ainsert a.stringValues arg.name value }

/-- The combined short-name loop of `Parser::Parse` (CommandLine.hpp:986):
each letter after the dash is looked up; an unknown letter fails with the
letter's byte offset inside the token, a second Argument letter in one
cluster fails, Options are activated, and the single Argument letter (if
any) makes the parser await a value.  `i` is the byte index of the head
of `rest` inside the whole token; returns the updated accumulator, the
new awaiting-value flag and the pending definition. -/
def clusterLoop (accu : Accu) (lastArg : CommandLineArg) (found : Bool)
    (i : Nat) : Bytes → Except (ErrKind × Nat) (Accu × Bool × CommandLineArg)
  | [] => .ok (accu, found, lastArg)
  | b :: rest =>
    match alookup accu.argsByLetter b with
    | none => .error (.unknownLetter, i)
    | some d =>
      if d.argClass = .option then
        clusterLoop { accu with optionNames := setInsert accu.optionNames d.name }
          lastArg found (i + 1) rest
      else if found then .error (.multipleArgumentsInCluster, 0)
      else clusterLoop accu d true (i + 1) rest

/-- One iteration of the token loop in `Parser::Parse`
(CommandLine.hpp:930-1032), processing the already-trimmed token `t`
against the current state.  On error, returns the error kind together
with the extra byte offset added to the diagnostic position (`position
+= i` for an unknown letter, 0 otherwise).  On success, returns the
updated accumulator, awaiting-value flag and pending definition. -/
def processToken (accu : Accu) (expect : Bool) (lastArg : CommandLineArg)
    (t : Bytes) : Except (ErrKind × Nat) (Accu × Bool × CommandLineArg) :=
  if t.length = 0 then .ok (accu, expect, lastArg)
  else if expect then
    match setValue accu lastArg t with
    | .ok a => .ok (a, false, lastArg)
    | .error k => .error (k, 0)
  else if t.headD 0 = 45 then
    if t.length > 1 then
      if t.getD 1 0 = 45 then
        if t.length > 2 then
          match alookup accu.argsByName (t.drop 2) with
          | none => .error (.unknownArgument, 0)
          | some d =>
            if d.argClass = .option then
              .ok ({ accu with
                optionNames := setInsert accu.optionNames (t.drop 2) },
                expect, lastArg)
            else .ok (accu, true, d)
        else .error (.syntaxError, 0)
      else clusterLoop accu lastArg false 1 (t.drop 1)
    else
      if accu.operandValues.length > accu.operands.length ∧ accu.restrictOperands
      then .error (.tooManyOperands, 0)
      else .ok ({ accu with operandValues := accu.operandValues ++ [t] },
        expect, lastArg)
  else
    if accu.operandValues.length > accu.operands.length ∧ accu.restrictOperands
    then .error (.tooManyOperands, 0)
    else .ok ({ accu with operandValues := accu.operandValues ++ [t] },
      expect, lastArg)

/-- The data handed to `Parser::ThrowError` when parsing aborts: the error
kind, the fully reconstructed command line, and the byte position of the
caret anchor inside it.  The fields `tok` and `offInTok` are
specification ghosts (not passed to the C++ `ThrowError`): the trimmed
offending token and the byte offset of the offending byte inside it
(0 except for unknown-letter errors). -/
structure ParseErr where
  kind : ErrKind
  line : Bytes
  pos : Nat
  tok : Bytes
  offInTok : Nat
deriving DecidableEq

/-- Result of `Parser::Parse`.  Besides the accumulator (on success) or
the diagnostic data (on failure), both constructors record `argvAfter`:
the value of each caller-owned `argv[i]` string after the parse, which
the in-place `Trim` has replaced by its trimmed form (on error, the
`catch` block at CommandLine.hpp:1033 trims the remaining tokens too
while reconstructing the full line). -/
inductive ParseResult where
  | ok (accu : Accu) (argvAfter : List Bytes)
  | err (e : ParseErr) (argvAfter : List Bytes)
deriving DecidableEq

/-- Records one more trimmed token at the front of the `argvAfter` list
carried by a parse result (the token's in-place trim happened before the
rest of the loop ran). -/
def consAfter (t : Bytes) : ParseResult → ParseResult
  | .ok a after => .ok a (t :: after)
  | .err e after => .err e (t :: after)

/-- The `catch` block of `Parser::Parse` (CommandLine.hpp:1033): trims
every remaining token and appends it to the reconstructed line (a space
separator is added whenever the line is nonempty).  Returns the full
line and the list of trimmed remaining tokens. -/
def joinRest (line : Bytes) : List Bytes → Bytes × List Bytes
  | [] => (line, [])
  | tok :: rest =>
    let t := trim tok
    let line' := if 0 < line.length then line ++ 32 :: t else line ++ t
    let r := joinRest line' rest
    (r.1, t :: r.2)

/-- The token loop of `Parser::Parse` (CommandLine.hpp:913) for the
tokens after the program name.  `line` is the reconstructed command line
so far; for each token, `position = line.tellp()` is recorded before the
trimmed token is appended (preceded by a space when the line is
nonempty), so the token's first byte lands at line index
`position + 1` whenever the line was nonempty. -/
def parseTokens (accu : Accu) (expect : Bool) (lastArg : CommandLineArg)
    (line : Bytes) : List Bytes → ParseResult
  | [] => .ok accu []
  | tok :: rest =>
    let pos := line.length
    let t := trim tok
    let line' := if 0 < pos then line ++ 32 :: t else line ++ t
    match processToken accu expect lastArg t with
    | .error (k, off) =>
      let r := joinRest line' rest
      .err ⟨k, r.1, pos + off, t, off⟩ (t :: r.2)
    | .ok (a', e', la') => consAfter t (parseTokens a' e' la' line' rest)

/-- `Parser::Parse` (CommandLine.hpp:907): token 0 is trimmed, recorded
as the executable name and placed at the start of the reconstructed
line; the remaining tokens are processed by the state machine.  A parse
that reaches the end of the token vector returns the accumulator even
when the machine is still awaiting an argument value. -/
def parse (accu : Accu) (argv : List Bytes) : ParseResult :=
  match argv with
  | [] => .ok accu []
  | prog :: rest =>
    let t := trim prog
    consAfter t (parseTokens { accu with executableName := t } false emptyArg t rest)

/-- `Arguments::IsHelpRequested` (CommandLine.hpp:493): true when no
Operand definitions, no activated options and no definitions at all are
present, or when the option name "help" was activated. -/
def isHelpRequested (a : Accu) : Bool :=
  if a.operands.length < 1 ∧ a.optionNames.length < 1 ∧ a.argsByName.length < 1
  then true
  else if strB ("help") ∈ a.optionNames then true
  else false

/-- The accumulator of a successful parse, `none` on error.  (On error no
partial value store is exposed: `ThrowError` raises.) -/
def resOption : ParseResult → Option Accu
  | .ok a _ => some a
  | .err _ _ => none

/-- The error kind of a failed parse, `none` on success. -/
def errKindOf : ParseResult → Option ErrKind
  | .ok _ _ => none
  | .err e _ => some e.kind

/-- The post-parse values of the caller-owned argv strings. -/
def argvAfterOf : ParseResult → List Bytes
  | .ok _ v => v
  | .err _ v => v

/-- The display width used by the diagnostic renderer
(`this->screenWidth`, set to 80 in the constructor and never changed). -/
def screenWidth : Nat := 80

/-- `(int)(ratio * (float)windowSize)` with `ratio = 0.666f` and
`windowSize = 80`: the float product is 53.28…, truncated to 53. -/
def maxHead : Nat := 53

/-- `windowSize - maxHead`. -/
def maxTail : Nat := 27

/-- The display window selected by `Parser::ThrowError`
(CommandLine.hpp:570): `start` is the byte offset of the window inside
the line, `head` the number of window bytes before the caret anchor, and
`len` the number of displayed bytes.  The C++ arithmetic is on `int`;
the `Nat` subtractions below agree with it on every reachable input
(`pos < lineLen`, and each subtraction is guarded by the branch
condition). -/
structure Window where
  start : Nat
  head : Nat
  len : Nat
deriving DecidableEq

/-- The four-case window selection of `Parser::ThrowError`
(CommandLine.hpp:584-601).  The rendered caret row consists of
`head + 1` spaces followed by `^`, so the caret sits at window column
`head + 1`. -/
def errorWindow (lineLen pos : Nat) : Window :=
  if pos < maxHead ∨ lineLen < screenWidth then
    ⟨0, pos, min screenWidth lineLen⟩
  else if lineLen - pos < maxTail then
    ⟨lineLen - screenWidth, pos - (lineLen - screenWidth), screenWidth⟩
  else
    ⟨pos - maxHead, maxHead, screenWidth⟩

/-- Decimal digit bytes of a natural number (fuel-structural; the fuel
`n + 1` always suffices since `n / 10 < n` for `n ≥ 10`). -/
def decimalDigitsAux : Nat → Nat → Bytes
  | 0, _ => []
  | fuel + 1, n =>
    if n < 10 then [48 + n]
    else decimalDigitsAux fuel (n / 10) ++ [48 + n % 10]

/-- Decimal digit bytes of a natural number, as emitted by
`out << textAttribute` for an `int`. -/
def decimalBytes (n : Nat) : Bytes := decimalDigitsAux (n + 1) n

/-- Number of bytes skipped by the left-trim loop of `Parser::FormatLine`
(CommandLine.hpp:678): leading bytes that are non-printable or spaces,
except the escape byte 27. -/
def countLeftTrim : Bytes → Nat
  | [] => 0
  | b :: rest =>
    if (!isprintB b ∨ b = 32) ∧ b ≠ 27 then countLeftTrim rest + 1 else 0

/-- Pads `out` with spaces up to `limit` visible characters
(`fill_remainder_with_spaces`, CommandLine.hpp:844). -/
def fillSpaces (out : Bytes) (limit charCount : Nat) : Bytes :=
  if limit > charCount then out ++ List.replicate (limit - charCount) 32 else out

/-- The scanning loop of `Parser::FormatLine` (CommandLine.hpp:687-849),
with the `goto`s unfolded into explicit branches.  State per iteration:
`cursor` (current byte), `charCount` (visible characters committed to the
line), `mbRemain` (continuation bytes still expected of a multi-byte
character), `lastWord`/`lastWordCharCount` (the word being accumulated),
`foundSoftHyphen` (the last breaker was the soft hyphen),
`lastWordPosition` (byte position of the last breaker), `attrSet`
(an attribute change was already captured for the current word), `attr`
(the carried text-attribute register) and `out` (bytes emitted so far).

`fuel` is a structural bound on the number of iterations: every
recursive call advances `cursor` by at least one byte, so any
`fuel ≥ text.length - cursor` makes the function agree with the C++
loop (the wrapper passes `text.length + 1`).  Returns
`(output bytes, final cursor, final attribute register)`. -/
def flLoop (text : Bytes) (limit softHyphen : Nat) :
    Nat → Nat → Nat → Nat → Bytes → Nat → Bool → Nat → Bool → Nat → Bytes →
    Bytes × Nat × Nat
  | 0, cursor, charCount, _, lastWord, lastWordCharCount, _, _, _, attr, out =>
    (fillSpaces (out ++ lastWord) limit (charCount + lastWordCharCount), cursor,
      attr)
  | fuel + 1, cursor, charCount, mbRemain, lastWord, lastWordCharCount,
      foundSoftHyphen, lastWordPosition, attrSet, attr, out =>
    if cursor < text.length then
      let c := text.getD cursor 0
      if mbRemain > 0 ∧ c &&& 0xC0 = 0x80 then
        flLoop text limit softHyphen fuel (cursor + 1) charCount (mbRemain - 1)
          (lastWord ++ [c]) lastWordCharCount foundSoftHyphen lastWordPosition
          attrSet attr out
      else
        if charCount + lastWordCharCount + 1 > limit then
          if c ≠ softHyphen ∧ (¬isprintB c ∨ c = 32) ∧ c ≠ 29 then
            (out ++ lastWord, cursor, attr)
          else if lastWordPosition = 0 then
            (out ++ lastWord, cursor, attr)
          else
            (fillSpaces (out ++ (if foundSoftHyphen then [45] else []))
              limit charCount, lastWordPosition, attr)
        else if c &&& 0xE0 = 0xC0 then
          flLoop text limit softHyphen fuel (cursor + 1) charCount 1
            (lastWord ++ [c]) (lastWordCharCount + 1) foundSoftHyphen
            lastWordPosition attrSet attr out
        else if c &&& 0xF0 = 0xE0 then
          flLoop text limit softHyphen fuel (cursor + 1) charCount 2
            (lastWord ++ [c]) (lastWordCharCount + 1) foundSoftHyphen
            lastWordPosition attrSet attr out
        else if c &&& 0xF8 = 0xF0 then
          flLoop text limit softHyphen fuel (cursor + 1) charCount 3
            (lastWord ++ [c]) (lastWordCharCount + 1) foundSoftHyphen
            lastWordPosition attrSet attr out
        else if c = 27 ∧ cursor + 3 < text.length ∧ text.getD (cursor + 1) 0 = 91
            ∧ text.getD (cursor + 3) 0 = 109 ∧ 48 ≤ text.getD (cursor + 2) 0
            ∧ text.getD (cursor + 2) 0 ≤ 56 ∧ text.getD (cursor + 2) 0 ≠ 51
            ∧ text.getD (cursor + 2) 0 ≠ 54 then
          let v := text.getD (cursor + 2) 0 - 48
          flLoop text limit softHyphen fuel (cursor + 4) charCount 0
            (lastWord ++ [27, 91, 48 + v, 109]) lastWordCharCount
            foundSoftHyphen lastWordPosition true
            (if attrSet then attr else v) out
        else if softHyphen ≠ 0 ∧ c = softHyphen then
          flLoop text limit softHyphen fuel (cursor + 1)
            (charCount + lastWordCharCount) 0 [] 0 true cursor false attr
            (out ++ lastWord)
        else if (¬isprintB c ∨ c = 32) ∧ c ≠ 29 then
          flLoop text limit softHyphen fuel (cursor + 1)
            (charCount + lastWordCharCount) 0 [32] 1 false cursor false attr
            (out ++ lastWord)
        else
          flLoop text limit softHyphen fuel (cursor + 1) charCount 0
            (lastWord ++ [if c = 29 then 32 else c]) (lastWordCharCount + 1)
            foundSoftHyphen lastWordPosition attrSet attr out
    else
      (fillSpaces (out ++ lastWord) limit (charCount + lastWordCharCount),
        cursor, attr)

/-- `Parser::FormatLine` (CommandLine.hpp:650): emits the attribute
re-open marker, left-trims from the cursor, then scans one line's worth
of text.  Returns `(emitted bytes, new cursor, new attribute register)`.
The byte 29 is the non-breaking-space marker, byte 27 starts an
attribute escape, `softHyphen = 0` disables soft hyphens. -/
def formatLine (text : Bytes) (cursor limit softHyphen attr : Nat) :
    Bytes × Nat × Nat :=
  let out0 : Bytes := [27, 91] ++ decimalBytes attr ++ [109]
  let c0 := cursor + countLeftTrim (text.drop cursor)
  flLoop text limit softHyphen (text.length + 1) c0 0 0 [] 0 false 0 false
    attr out0

/-- Visible-column count of emitted bytes, as the specification counts
them: a valid attribute escape `ESC [ d m` (digit 0-8 except 3 and 6)
contributes 0, a UTF-8 continuation byte extends the preceding character
(contributing 0), and every other byte contributes 1 (the soft-hyphen
substitute `-` and the space rendered for a non-breaking space each
count as one column). -/
def specVisibleColumnsAux : Nat → Bytes → Nat
  | 0, _ => 0
  | _ + 1, [] => 0
  | fuel + 1, 27 :: 91 :: d :: 109 :: rest =>
    if 48 ≤ d ∧ d ≤ 56 ∧ d ≠ 51 ∧ d ≠ 54 then specVisibleColumnsAux fuel rest
    else 1 + specVisibleColumnsAux fuel (91 :: d :: 109 :: rest)
  | fuel + 1, b :: rest =>
    (if b &&& 0xC0 = 0x80 then 0 else 1) + specVisibleColumnsAux fuel rest

/-- Wrapper supplying sufficient fuel (every step shortens the list, so
`length + 1` iterations always finish). -/
def specVisibleColumns (bs : Bytes) : Nat :=
  specVisibleColumnsAux (bs.length + 1) bs

/-- Test fixture: the optional string argument
`host` / `h` with default "127.0.0.1" (cf. main.cpp:28). -/
def hostArg : CommandLineArg :=
  optionalStringArg (strB ("host")) 104 (strB ("127.0.0.1")) (strB ("ip")) []

/-- Test fixture: the optional int argument `port` / `p` with default
50000 (cf. main.cpp:30). -/
def portArg : CommandLineArg :=
  optionalIntArg (strB ("port")) 112 50000 (strB ("port")) []

/-- Test fixture: the operand `database` (cf. main.cpp:33). -/
def dbOperand : CommandLineArg := operandArg (strB ("database")) []

/-- Registry for claim C1: host, port, one operand, restricted operand
count. -/
def accuC1 : Accu :=
  match addArg emptyAccu hostArg with
  | .error _ => emptyAccu
  | .ok a1 =>
    match addArg a1 portArg with
    | .error _ => emptyAccu
    | .ok a2 =>
      match addArg a2 dbOperand with
      | .error _ => emptyAccu
      | .ok a3 => { a3 with restrictOperands := true }

/-- Registry for claim C4: exactly one declared operand,
`RestrictOperands()` active. -/
def accuC4 : Accu :=
  match addArg emptyAccu dbOperand with
  | .error _ => emptyAccu
  | .ok a1 => { a1 with restrictOperands := true }

/-- Registry for claims C6 / C9 / C10: the host and port arguments. -/
def accuC6 : Accu :=
  match addArg emptyAccu hostArg with
  | .error _ => emptyAccu
  | .ok a1 =>
    match addArg a1 portArg with
    | .error _ => emptyAccu
    | .ok a2 => a2

/-- The accumulator produced by parsing just a program name against an
empty registry (used as the C8 witness). -/
def c8Accu : Accu := { emptyAccu with executableName := strB ("prog") }

/-- The diagnostic produced for `prog --bad` against an empty registry
(used as the C5 witness). -/
def c5WitnessErr : ParseErr :=
  ⟨.unknownArgument, strB ("prog --bad"), 4, strB ("--bad"), 0⟩

/-- The diagnostic produced for an empty program name followed by
`--bad`: the reconstructed line starts directly with the offending
token, yet the caret is still rendered at column `pos + 1 = 1`
(used as the C5 counterexample). -/
def c5DegenerateErr : ParseErr :=
  ⟨.unknownArgument, strB ("--bad"), 0, strB ("--bad"), 0⟩

/-! ## Helper lemmas -/

theorem length_lt_one_iff {α : Type} (l : List α) : l.length < 1 ↔ l = [] := by
  cases l <;> simp

/-- A token whose bytes are all printable non-space characters is left
unchanged by `Trim`. -/
theorem trim_eq_self (t : Bytes) (h : ∀ b ∈ t, 33 ≤ b ∧ b ≤ 126) :
    trim t = t := by
  have hdrop : t.dropWhile (fun b => !(decide (33 ≤ b ∧ b ≤ 126))) = t := by
    cases t with
    | nil => rfl
    | cons b bs =>
      have hb := h b (List.mem_cons_self b bs)
      simp [List.dropWhile_cons, hb.1, hb.2]
  unfold trim
  rw [hdrop]
  cases hr : t.reverse with
  | nil =>
    have ht : t = [] := List.reverse_eq_nil_iff.mp hr
    subst ht
    rfl
  | cons x xs =>
    have hx : x ∈ t := by
      have : x ∈ t.reverse := by rw [hr]; exact List.mem_cons_self x xs
      exact List.mem_reverse.mp this
    have hb := h x hx
    rw [List.dropWhile_cons]
    have : isprintB x = true := by
      unfold isprintB
      simp only [decide_eq_true_eq]
      omega
    simp [this, ← hr]

/-- `consAfter` leaves the success accumulator unchanged. -/
theorem resOption_consAfter (t : Bytes) (r : ParseResult) :
    resOption (consAfter t r) = resOption r := by
  cases r <;> rfl

/-- `consAfter` conses the trimmed token onto the recorded argv. -/
theorem argvAfterOf_consAfter (t : Bytes) (r : ParseResult) :
    argvAfterOf (consAfter t r) = t :: argvAfterOf r := by
  cases r <;> rfl

/-- An error behind `consAfter` is an error of the wrapped result with
the same diagnostic. -/
theorem consAfter_err (t : Bytes) (r : ParseResult) (e : ParseErr)
    (after : List Bytes) (h : consAfter t r = .err e after) :
    ∃ after', r = .err e after' := by
  cases r with
  | ok a as => simp [consAfter] at h
  | err e1 as =>
    refine ⟨as, ?_⟩
    injection h with he hafter
    rw [he]

/-- `resOption` of a parse does not depend on the reconstructed line
accumulator (the line is used only inside error diagnostics). -/
theorem parseTokens_resOption_line_irrel (toks : List Bytes) :
    ∀ (a : Accu) (ex : Bool) (la : CommandLineArg) (l₁ l₂ : Bytes),
      resOption (parseTokens a ex la l₁ toks) =
        resOption (parseTokens a ex la l₂ toks) := by
  induction toks with
  | nil => intro a ex la l₁ l₂; rfl
  | cons tok rest ih =>
    intro a ex la l₁ l₂
    simp only [parseTokens]
    cases hp : processToken a ex la (trim tok) with
    | error kv => cases kv; simp [resOption]
    | ok r =>
      obtain ⟨a', e', la'⟩ := r
      dsimp only
      rw [resOption_consAfter, resOption_consAfter]
      exact ih a' e' la' _ _

/-- The `catch` block returns exactly the trimmed remaining tokens. -/
theorem joinRest_snd (toks : List Bytes) :
    ∀ l, (joinRest l toks).2 = toks.map trim := by
  induction toks with
  | nil => intro l; rfl
  | cons tok rest ih =>
    intro l
    simp only [joinRest, List.map_cons]
    rw [ih]

/-- The `catch` block only appends to the already reconstructed line. -/
theorem joinRest_fst_append (toks : List Bytes) :
    ∀ l, ∃ s, (joinRest l toks).1 = l ++ s := by
  induction toks with
  | nil => intro l; exact ⟨[], by simp [joinRest]⟩
  | cons tok rest ih =>
    intro l
    obtain ⟨s, hs⟩ := ih (if 0 < l.length then l ++ 32 :: trim tok else l ++ trim tok)
    by_cases h : 0 < l.length
    · refine ⟨32 :: trim tok ++ s, ?_⟩
      simp only [joinRest]
      rw [if_pos h] at hs ⊢
      rw [hs, List.append_assoc]
    · refine ⟨trim tok ++ s, ?_⟩
      simp only [joinRest]
      rw [if_neg h] at hs ⊢
      rw [hs, List.append_assoc]

/-- After a parse, every caller-owned argv string holds its trimmed
value. -/
theorem parseTokens_argvAfter (toks : List Bytes) :
    ∀ (a : Accu) (ex : Bool) (la : CommandLineArg) (l : Bytes),
      argvAfterOf (parseTokens a ex la l toks) = toks.map trim := by
  induction toks with
  | nil => intro a ex la l; rfl
  | cons tok rest ih =>
    intro a ex la l
    simp only [parseTokens, List.map_cons]
    cases hp : processToken a ex la (trim tok) with
    | error kv =>
      cases kv
      dsimp only
      simp [argvAfterOf, joinRest_snd]
    | ok r =>
      obtain ⟨a', e', la'⟩ := r
      dsimp only
      rw [argvAfterOf_consAfter]
      rw [ih a' e' la'
        (if 0 < l.length then l ++ 32 :: trim tok else l ++ trim tok)]

/-- Injectivity of an error result: equal `Except.error` pairs have equal
components. -/
theorem errPairEq {α : Type} {k₁ k₂ : ErrKind} {o₁ o₂ : Nat}
    (h : (Except.error (k₁, o₁) : Except (ErrKind × Nat) α) =
      .error (k₂, o₂)) : k₁ = k₂ ∧ o₁ = o₂ := by
  injection h with h'
  exact ⟨congrArg Prod.fst h', congrArg Prod.snd h'⟩

/-- An error reported by the short-name cluster loop carries a letter
offset inside the remaining cluster bytes (or 0 for the
multiple-arguments error). -/
theorem clusterLoop_err_off (rest : Bytes) :
    ∀ (a : Accu) (la : CommandLineArg) (f : Bool) (i : Nat)
      (k : ErrKind) (off : Nat),
      clusterLoop a la f i rest = .error (k, off) →
      off = 0 ∨ (i ≤ off ∧ off < i + rest.length) := by
  induction rest with
  | nil =>
    intro a la f i k off h
    simp [clusterLoop] at h
  | cons b bs ih =>
    intro a la f i k off h
    simp only [clusterLoop] at h
    cases hl : alookup a.argsByLetter b with
    | none =>
      rw [hl] at h
      dsimp only at h
      obtain ⟨-, ho⟩ := errPairEq h
      right
      simp only [List.length_cons]
      omega
    | some d =>
      rw [hl] at h
      dsimp only at h
      by_cases hc : d.argClass = .option
      · rw [if_pos hc] at h
        rcases ih _ _ _ _ _ _ h with h0 | ⟨hle, hlt⟩
        · exact Or.inl h0
        · right
          simp only [List.length_cons]
          omega
      · rw [if_neg hc] at h
        by_cases hf : f
        · rw [if_pos hf] at h
          obtain ⟨-, ho⟩ := errPairEq h
          omega
        · rw [if_neg hf] at h
          rcases ih _ _ _ _ _ _ h with h0 | ⟨hle, hlt⟩
          · exact Or.inl h0
          · right
            simp only [List.length_cons]
            omega

/-- Any error reported while processing one token concerns a nonempty
token, and the extra diagnostic offset stays inside the token. -/
theorem processToken_err_bounds (a : Accu) (ex : Bool)
    (la : CommandLineArg) (t : Bytes) (k : ErrKind) (off : Nat)
    (h : processToken a ex la t = .error (k, off)) :
    0 < t.length ∧ off < t.length := by
  unfold processToken at h
  by_cases h0 : t.length = 0
  · rw [if_pos h0] at h
    simp at h
  · rw [if_neg h0] at h
    have hpos : 0 < t.length := Nat.pos_of_ne_zero h0
    refine ⟨hpos, ?_⟩
    by_cases hex : ex
    · rw [if_pos hex] at h
      cases hsv : setValue a la t with
      | ok a1 => rw [hsv] at h; simp at h
      | error k1 =>
        rw [hsv] at h
        dsimp only at h
        obtain ⟨-, ho⟩ := errPairEq h
        omega
    · rw [if_neg hex] at h
      by_cases hh : t.headD 0 = 45
      · rw [if_pos hh] at h
        by_cases h1 : t.length > 1
        · rw [if_pos h1] at h
          by_cases h2 : t.getD 1 0 = 45
          · rw [if_pos h2] at h
            by_cases h3 : t.length > 2
            · rw [if_pos h3] at h
              cases hl : alookup a.argsByName (t.drop 2) with
              | none =>
                rw [hl] at h
                dsimp only at h
                obtain ⟨-, ho⟩ := errPairEq h
                omega
              | some d =>
                rw [hl] at h
                dsimp only at h
                by_cases hc : d.argClass = .option
                · rw [if_pos hc] at h; simp at h
                · rw [if_neg hc] at h; simp at h
            · rw [if_neg h3] at h
              obtain ⟨-, ho⟩ := errPairEq h
              omega
          · rw [if_neg h2] at h
            rcases clusterLoop_err_off (t.drop 1) _ _ _ _ _ _ h with hz | ⟨_, hlt⟩
            · omega
            · have hd : (t.drop 1).length = t.length - 1 := by simp
              omega
        · rw [if_neg h1] at h
          by_cases hres :
              a.operandValues.length > a.operands.length ∧ a.restrictOperands
          · rw [if_pos hres] at h
            obtain ⟨-, ho⟩ := errPairEq h
            omega
          · rw [if_neg hres] at h; simp at h
      · rw [if_neg hh] at h
        by_cases hres :
            a.operandValues.length > a.operands.length ∧ a.restrictOperands
        · rw [if_pos hres] at h
          obtain ⟨-, ho⟩ := errPairEq h
          omega
        · rw [if_neg hres] at h; simp at h

/-- Extracting the token placed after a given prefix and a space
separator. -/
theorem drop_take_mid (pre mid s : Bytes) :
    ((pre ++ 32 :: (mid ++ s)).drop (pre.length + 1)).take mid.length = mid := by
  induction pre with
  | nil => simp [List.take_left]
  | cons x xs ih => simp [ih]

/-- Anatomy of every parse error: the reconstructed line consists of a
nonempty prefix (the line before the offending token), the space
separator, the trimmed offending token, and a suffix; the diagnostic
position equals the prefix length plus the letter offset, which stays
inside the token. -/
theorem parseTokens_err_anatomy (toks : List Bytes) :
    ∀ (a : Accu) (ex : Bool) (la : CommandLineArg) (line : Bytes),
      line ≠ [] → ∀ e after, parseTokens a ex la line toks = .err e after →
      ∃ (pre s : Bytes), pre.length + e.offInTok = e.pos ∧ 0 < pre.length ∧
        e.offInTok < e.tok.length ∧ e.line = pre ++ 32 :: (e.tok ++ s) := by
  induction toks with
  | nil =>
    intro a ex la line hl e after h
    simp [parseTokens] at h
  | cons tok rest ih =>
    intro a ex la line hl e after h
    simp only [parseTokens] at h
    have hpos : 0 < line.length := List.length_pos.mpr hl
    rw [if_pos hpos] at h
    cases hp : processToken a ex la (trim tok) with
    | error kv =>
      obtain ⟨k, off⟩ := kv
      rw [hp] at h
      dsimp only at h
      obtain ⟨htne, hoff⟩ := processToken_err_bounds _ _ _ _ _ _ hp
      obtain ⟨s, hs⟩ := joinRest_fst_append rest (line ++ 32 :: trim tok)
      injection h with he hafter
      subst he
      refine ⟨line, s, rfl, hpos, hoff, ?_⟩
      dsimp only
      rw [hs]
      simp
    | ok r =>
      obtain ⟨a', e', la'⟩ := r
      rw [hp] at h
      dsimp only at h
      obtain ⟨after', h'⟩ := consAfter_err _ _ _ _ h
      exact ih a' e' la' (line ++ 32 :: trim tok) (by simp) e after' h'

/-- Geometry of the selected display window: the caret anchor lies
`head` bytes after the window start, the caret column `head + 1` lies
strictly inside the window, and the window fits inside the line. -/
theorem errorWindow_props (lineLen pos : Nat) (h : pos + 1 < lineLen) :
    (errorWindow lineLen pos).head = pos - (errorWindow lineLen pos).start ∧
    (errorWindow lineLen pos).start ≤ pos ∧
    (errorWindow lineLen pos).head + 1 < (errorWindow lineLen pos).len ∧
    (errorWindow lineLen pos).start + (errorWindow lineLen pos).len ≤ lineLen
    := by
  unfold errorWindow maxHead maxTail screenWidth
  split_ifs with h1 h2 <;> refine ⟨?_, ?_, ?_, ?_⟩ <;> dsimp only <;> omega

/-- The help predicate, characterized over any accumulator. -/
theorem isHelpRequested_iff (a : Accu) :
    isHelpRequested a = true ↔
      ((a.operands = [] ∧ a.optionNames = [] ∧ a.argsByName = []) ∨
        strB ("help") ∈ a.optionNames) := by
  unfold isHelpRequested
  split_ifs with h1 h2
  · constructor
    · intro _
      exact Or.inl ⟨(length_lt_one_iff _).mp h1.1,
        (length_lt_one_iff _).mp h1.2.1, (length_lt_one_iff _).mp h1.2.2⟩
    · intro _
      rfl
  · constructor
    · intro _
      exact Or.inr h2
    · intro _
      rfl
  · constructor
    · intro hc
      exact absurd hc (by simp)
    · rintro (⟨ho, hon, han⟩ | hm)
      · exact absurd ⟨by simp [ho], by simp [hon], by simp [han]⟩ h1
      · exact absurd hm h2

/-- Long-form reference to a registered Argument: `--name` resolves via
`argsByName` and puts the parser into the awaiting-value state without
touching the value store. -/
theorem processToken_longform (a : Accu) (la : CommandLineArg)
    (d : CommandLineArg) (name : Bytes)
    (hn : alookup a.argsByName name = some d)
    (hcls : d.argClass = .argument) (hne : name ≠ []) :
    processToken a false la (45 :: 45 :: name) = .ok (a, true, d) := by
  have hlen : 0 < name.length := List.length_pos.mpr hne
  unfold processToken
  rw [if_neg (by simp)]
  rw [if_neg (by simp)]
  rw [if_pos (by rfl)]
  rw [if_pos (by simp)]
  rw [if_pos (by rfl)]
  rw [if_pos (by simp; omega)]
  simp only [List.drop_succ_cons, List.drop_zero]
  rw [hn]
  dsimp only
  rw [if_neg (by rw [hcls]; decide)]

/-- Short-form reference to a registered Argument: `-c` resolves via
`argsByLetter` and puts the parser into the awaiting-value state without
touching the value store. -/
theorem processToken_shortform (a : Accu) (la : CommandLineArg)
    (d : CommandLineArg) (c : Nat)
    (hl : alookup a.argsByLetter c = some d)
    (hcls : d.argClass = .argument) (hcd : c ≠ 45) :
    processToken a false la (45 :: c :: []) = .ok (a, true, d) := by
  unfold processToken
  rw [if_neg (by simp)]
  rw [if_neg (by simp)]
  rw [if_pos (by rfl)]
  rw [if_pos (by simp)]
  rw [if_neg (by simpa using hcd)]
  simp only [List.drop_succ_cons, List.drop_zero]
  unfold clusterLoop
  rw [hl]
  dsimp only
  rw [if_neg (by rw [hcls]; decide)]
  rw [if_neg (by simp)]
  rfl

/-! ## Claim theorems -/

/-- C1 (code-bug evaluation): registering `host` (string, `h`, default
"127.0.0.1"), `port` (int, `p`, default 50000), one Operand and
`RestrictOperands()`, then parsing
`[prog, "-h", "10.0.0.1", "-p", "5432", "mydb"]` does NOT yield
host = "10.0.0.1" and port = 5432 as the claim states: because
`SetValue` stores through `std::unordered_map::insert`, which is a no-op
on the pre-seeded default keys, the parse succeeds but leaves
host = "127.0.0.1" and port = 50000.  The operand list is `["mydb"]` and
`IsHelpRequested()` is false, as claimed. -/
theorem c1_supplied_values_are_discarded :
    (resOption (parse accuC1 [strB ("prog"), strB ("-h"), strB ("10.0.0.1"),
      strB ("-p"), strB ("5432"), strB ("mydb")])).map
      (fun a => (alookup a.stringValues (strB ("host")),
        alookup a.intValues (strB ("port")), a.operandValues,
        isHelpRequested a)) =
    some (some (strB ("127.0.0.1")), some (50000 : Int), [strB ("mydb")],
      false) := by
  decide

/-- C2 (code-bug evaluation): on the text `ab~cdef` with soft hyphen `~`
and limit 5, `FormatLine` breaks at the soft hyphen, emits the
substituted `-`, and then pads with `limit - charCount` spaces without
counting the hyphen — the emitted line `ab-` followed by three spaces
has 6 visible columns, not the 5 the claim requires. -/
theorem c2_softhyphen_line_exceeds_limit :
    formatLine (strB ("ab~cdef")) 0 5 126 0 =
      (strB ("\x1b[0mab-   "), 2, 0) ∧
    specVisibleColumns (formatLine (strB ("ab~cdef")) 0 5 126 0).1 = 6 := by
  decide

/-- C3 (code-bug evaluation): when a line starts at a soft-hyphen break
point (cursor 1 in `␣~abcd`, limit 3), the word after the hyphen is
overlong, and the force-break guard `lastWordPosition == 0` compares
against byte 0 of the whole text rather than the start of this line, so
`FormatLine` rewinds the cursor to its starting position: the cursor
does not advance (1 before, 1 after, with 1 < 6 = text length), and the
`ColumnFormat` row loop re-enters the identical state forever. -/
theorem c3_formatLine_cursor_stuck :
    formatLine (strB (" ~abcd")) 1 3 126 0 = (strB ("\x1b[0m-   "), 1, 0) ∧
    1 < (strB (" ~abcd")).length := by
  decide

/-- C4 (code-bug evaluation): with one declared Operand and
`RestrictOperands()` active, the guard
`operandValues.size() > operands.size()` (strict, tested before the
push) lets a second positional token through: parsing
`[prog, "a", "b"]` succeeds with operands `["a", "b"]` (the claim
requires a too-many-operands failure); one token succeeds as claimed;
only a third token triggers the error. -/
theorem c4_restriction_allows_one_extra_operand :
    (resOption (parse accuC4 [strB ("prog"), strB ("a"), strB ("b")])).map
      (fun a => a.operandValues) = some [strB ("a"), strB ("b")] ∧
    (resOption (parse accuC4 [strB ("prog"), strB ("a")])).map
      (fun a => a.operandValues) = some [strB ("a")] ∧
    errKindOf (parse accuC4 [strB ("prog"), strB ("a"), strB ("b"),
      strB ("c")]) = some .tooManyOperands := by
  decide

/-- C6 (code-bug evaluation): for the int argument `port`,
`--port abc` fails with the invalid-integer error and
`--port 99999999999999999999` fails with the integer-out-of-range error,
as claimed; but a valid value token (`--port 5432`) is accepted by the
strict parse yet NOT stored: the `insert` into `intValues` is a no-op on
the key pre-seeded with the default 50000, refuting the claim's
"accepted … and stored" alternative. -/
theorem c6_integer_conversion_behavior :
    errKindOf (parse accuC6 [strB ("prog"), strB ("--port"), strB ("abc")]) =
      some .invalidInteger ∧
    errKindOf (parse accuC6 [strB ("prog"), strB ("--port"),
      strB ("99999999999999999999")]) = some .integerOutOfRange ∧
    (resOption (parse accuC6 [strB ("prog"), strB ("--port"),
      strB ("5432")])).map (fun a => alookup a.intValues (strB ("port"))) =
      some (some (50000 : Int)) := by
  decide

/-- C7 (amended): `Parse` does mutate the caller-owned argument vector:
`Trim` advances the `argv[i]` pointer past left-trimmed bytes and writes
NUL over right-trimmed bytes, so after `Parse` returns (successfully or
with a diagnostic) every argv entry holds exactly the trimmed form of
its original value, not the original bytes. -/
theorem c7_parse_trims_argv_in_place (accu : Accu) (argv : List Bytes) :
    argvAfterOf (parse accu argv) = argv.map trim := by
  cases argv with
  | nil => rfl
  | cons prog rest =>
    simp only [parse, List.map_cons]
    rw [argvAfterOf_consAfter]
    rw [parseTokens_argvAfter rest { accu with executableName := trim prog }
      false emptyArg (trim prog)]

/-- C7 (counterexample to the claim as stated): parsing
`[p, " x"]` changes the second argv string from `" x"` to `"x"` — the
bytes of the caller-owned vector are not identical before and after
`Parse`. -/
theorem c7_argv_mutated_counterexample :
    argvAfterOf (parse emptyAccu [strB ("p"), strB (" x")]) ≠
      [strB ("p"), strB (" x")] := by
  decide

/-- C8: after a successful `Parse`, `IsHelpRequested()` is true iff
either no Operand definitions, no activated options and no definitions
at all are present, or the option name `help` was activated. -/
theorem c8_help_iff (accu : Accu) (argv : List Bytes) (a : Accu)
    (after : List Bytes) (h : parse accu argv = .ok a after) :
    isHelpRequested a = true ↔
      ((a.operands = [] ∧ a.optionNames = [] ∧ a.argsByName = []) ∨
        strB ("help") ∈ a.optionNames) :=
  isHelpRequested_iff a

/-- Witness for C8 at a concrete successful parse. -/
theorem c8_help_iff_witness :
    parse emptyAccu [strB ("prog")] = .ok c8Accu [strB ("prog")] ∧
    (isHelpRequested c8Accu = true ↔
      ((c8Accu.operands = [] ∧ c8Accu.optionNames = [] ∧
        c8Accu.argsByName = []) ∨ strB ("help") ∈ c8Accu.optionNames)) :=
  ⟨by decide, c8_help_iff emptyAccu [strB ("prog")] c8Accu [strB ("prog")]
    (by decide)⟩

/-- C9: for a registered Argument with both a long name and a short
letter (the two registry entries resolving to the same definition, as
`AddArg` guarantees), parsing `--name value` and parsing `-c value` from
the same initial state produce the same accumulator — the same
string/int/double mappings, activated options and operand list — or fail
together.  The side conditions require the spelled tokens to be made of
printable non-space bytes (so that `Trim` leaves them intact) and the
letter not to be `-`. -/
theorem c9_long_short_same_store (accu : Accu) (d : CommandLineArg)
    (name value prog : Bytes) (c : Nat)
    (hn : alookup accu.argsByName name = some d)
    (hl : alookup accu.argsByLetter c = some d)
    (hcls : d.argClass = .argument)
    (hname : ∀ b ∈ name, 33 ≤ b ∧ b ≤ 126)
    (hne : name ≠ [])
    (hc : 33 ≤ c ∧ c ≤ 126) (hcd : c ≠ 45) :
    resOption (parse accu [prog, 45 :: 45 :: name, value]) =
      resOption (parse accu [prog, 45 :: c :: [], value]) := by
  have htl : trim (45 :: 45 :: name) = 45 :: 45 :: name := by
    refine trim_eq_self _ ?_
    intro b hb
    rcases List.mem_cons.mp hb with rfl | hb
    · omega
    · rcases List.mem_cons.mp hb with rfl | hb
      · omega
      · exact hname b hb
  have hts : trim (45 :: c :: []) = 45 :: c :: [] := by
    refine trim_eq_self _ ?_
    intro b hb
    rcases List.mem_cons.mp hb with rfl | hb
    · omega
    · rcases List.mem_cons.mp hb with rfl | hb
      · omega
      · simp at hb
  have hP1 : processToken { accu with executableName := trim prog } false
      emptyArg (45 :: 45 :: name) =
      .ok ({ accu with executableName := trim prog }, true, d) :=
    processToken_longform _ _ _ _ hn hcls hne
  have hP2 : processToken { accu with executableName := trim prog } false
      emptyArg (45 :: c :: []) =
      .ok ({ accu with executableName := trim prog }, true, d) :=
    processToken_shortform _ _ _ _ hl hcls hcd
  simp only [parse]
  rw [resOption_consAfter, resOption_consAfter]
  have step : ∀ (t1 l0 : Bytes), trim t1 = t1 →
      processToken { accu with executableName := trim prog } false emptyArg t1
        = .ok ({ accu with executableName := trim prog }, true, d) →
      resOption (parseTokens { accu with executableName := trim prog } false
        emptyArg l0 [t1, value]) =
      resOption (parseTokens { accu with executableName := trim prog } true d
        [] [value]) := by
    intro t1 l0 ht hp
    conv_lhs => rw [parseTokens]
    rw [ht, hp]
    dsimp only
    rw [resOption_consAfter]
    exact parseTokens_resOption_line_irrel [value] _ true d _ []
  rw [step (45 :: 45 :: name) (trim prog) htl hP1,
    step (45 :: c :: []) (trim prog) hts hP2]

/-- Witness for C9 at the registered `host` argument of `accuC6`. -/
theorem c9_long_short_same_store_witness :
    alookup accuC6.argsByName (strB ("host")) = some hostArg ∧
    alookup accuC6.argsByLetter 104 = some hostArg ∧
    hostArg.argClass = .argument ∧
    (∀ b ∈ strB ("host"), 33 ≤ b ∧ b ≤ 126) ∧
    strB ("host") ≠ [] ∧
    (33 ≤ 104 ∧ 104 ≤ 126) ∧ 104 ≠ 45 ∧
    resOption (parse accuC6
      [strB ("prog"), 45 :: 45 :: strB ("host"), strB ("10.0.0.1")]) =
      resOption (parse accuC6
        [strB ("prog"), 45 :: 104 :: [], strB ("10.0.0.1")]) :=
  ⟨by decide, by decide, by decide, by decide, by decide, by decide, by decide,
    c9_long_short_same_store accuC6 hostArg (strB ("host"))
      (strB ("10.0.0.1")) (strB ("prog")) 104 (by decide) (by decide)
      (by decide) (by decide) (by decide) (by decide) (by decide)⟩

/-- C10: when the final token of argv is a long-form (`--name`) or
single-letter short-form (`-c`) reference to a registered Argument, the
token merely records the pending definition and switches the parser to
the awaiting-value state; the token loop then ends and `Parse` returns
the accumulator completely unchanged — no error is raised and no value
is stored for that Argument (an optional Argument keeps its pre-seeded
default entry, a mandatory one has no entry), exactly as before the
token. -/
theorem c10_dangling_argument_reference (accu : Accu)
    (la : CommandLineArg) (d : CommandLineArg) (line name : Bytes) (c : Nat)
    (hn : alookup accu.argsByName name = some d)
    (hl : alookup accu.argsByLetter c = some d)
    (hcls : d.argClass = .argument)
    (hname : ∀ b ∈ name, 33 ≤ b ∧ b ≤ 126)
    (hne : name ≠ [])
    (hc : 33 ≤ c ∧ c ≤ 126) (hcd : c ≠ 45) :
    parseTokens accu false la line [45 :: 45 :: name] =
      .ok accu [45 :: 45 :: name] ∧
    parseTokens accu false la line [45 :: c :: []] =
      .ok accu [45 :: c :: []] := by
  have htl : trim (45 :: 45 :: name) = 45 :: 45 :: name := by
    refine trim_eq_self _ ?_
    intro b hb
    rcases List.mem_cons.mp hb with rfl | hb
    · omega
    · rcases List.mem_cons.mp hb with rfl | hb
      · omega
      · exact hname b hb
  have hts : trim (45 :: c :: []) = 45 :: c :: [] := by
    refine trim_eq_self _ ?_
    intro b hb
    rcases List.mem_cons.mp hb with rfl | hb
    · omega
    · rcases List.mem_cons.mp hb with rfl | hb
      · omega
      · simp at hb
  constructor
  · conv_lhs => rw [parseTokens]
    rw [htl, processToken_longform accu la d name hn hcls hne]
    dsimp only
    rw [parseTokens]
    rfl
  · conv_lhs => rw [parseTokens]
    rw [hts, processToken_shortform accu la d c hl hcls hcd]
    dsimp only
    rw [parseTokens]
    rfl

/-- Witness for C10 at the registered `port` argument of `accuC6`. -/
theorem c10_dangling_argument_reference_witness :
    alookup accuC6.argsByName (strB ("port")) = some portArg ∧
    alookup accuC6.argsByLetter 112 = some portArg ∧
    portArg.argClass = .argument ∧
    (∀ b ∈ strB ("port"), 33 ≤ b ∧ b ≤ 126) ∧
    strB ("port") ≠ [] ∧
    (33 ≤ 112 ∧ 112 ≤ 126) ∧ 112 ≠ 45 ∧
    (parseTokens accuC6 false emptyArg (strB ("prog"))
      [45 :: 45 :: strB ("port")] = .ok accuC6 [45 :: 45 :: strB ("port")] ∧
    parseTokens accuC6 false emptyArg (strB ("prog"))
      [45 :: 112 :: []] = .ok accuC6 [45 :: 112 :: []]) :=
  ⟨by decide, by decide, by decide, by decide, by decide, by decide, by decide,
    c10_dangling_argument_reference accuC6 emptyArg portArg (strB ("prog"))
      (strB ("port")) 112 (by decide) (by decide) (by decide) (by decide)
      (by decide) (by decide) (by decide)⟩

/-- C5 (amended): for every parse error raised on a token vector whose
program-name token is nonempty after trimming, the caret printed by
`ThrowError` lands exactly under the first byte of the offending token
(or, for unknown-letter errors, under the offending letter): the
diagnostic position `pos` satisfies `pos + 1 - offInTok = ` the line
index of the token's first byte (the token appears there in the
reconstructed line), the caret row places `^` at window column
`head + 1 = pos + 1 - start`, the caret lies strictly inside the chosen
window, the window fits inside the line, and the window start obeys the
four layout cases (start 0 when the caret is within the first
`maxHead = 53` columns or the line is shorter than the width;
right-aligned when the suffix after the caret is shorter than the tail
budget; otherwise the caret sits at the fixed head offset). -/
theorem c5_caret_under_offending_byte (accu : Accu) (prog : Bytes)
    (rest : List Bytes) (e : ParseErr) (after : List Bytes)
    (htrim : trim prog ≠ [])
    (h : parse accu (prog :: rest) = .err e after) :
    e.offInTok < e.tok.length ∧
    e.offInTok ≤ e.pos ∧
    (e.line.drop (e.pos + 1 - e.offInTok)).take e.tok.length = e.tok ∧
    e.pos + 1 < e.line.length ∧
    (errorWindow e.line.length e.pos).head =
      e.pos - (errorWindow e.line.length e.pos).start ∧
    (errorWindow e.line.length e.pos).start ≤ e.pos ∧
    (errorWindow e.line.length e.pos).head + 1 <
      (errorWindow e.line.length e.pos).len ∧
    (errorWindow e.line.length e.pos).start +
      (errorWindow e.line.length e.pos).len ≤ e.line.length ∧
    ((e.pos < maxHead ∨ e.line.length < screenWidth) →
      (errorWindow e.line.length e.pos).start = 0) ∧
    (¬(e.pos < maxHead ∨ e.line.length < screenWidth) →
      e.line.length - e.pos < maxTail →
      (errorWindow e.line.length e.pos).start + screenWidth = e.line.length) ∧
    (¬(e.pos < maxHead ∨ e.line.length < screenWidth) →
      ¬(e.line.length - e.pos < maxTail) →
      (errorWindow e.line.length e.pos).start = e.pos - maxHead ∧
      (errorWindow e.line.length e.pos).head = maxHead) := by
  simp only [parse] at h
  obtain ⟨after', h'⟩ := consAfter_err _ _ _ _ h
  obtain ⟨pre, s, hsum, hpre, hoff, hline⟩ :=
    parseTokens_err_anatomy rest _ false emptyArg (trim prog) htrim e
      after' h'
  have hlen : e.line.length = pre.length + 1 + e.tok.length + s.length := by
    rw [hline]
    simp
    omega
  have hcaret : e.pos + 1 < e.line.length := by omega
  have hidx : e.pos + 1 - e.offInTok = pre.length + 1 := by omega
  obtain ⟨w1, w2, w3, w4⟩ := errorWindow_props e.line.length e.pos hcaret
  refine ⟨hoff, by omega, ?_, hcaret, w1, w2, w3, w4, ?_, ?_, ?_⟩
  · rw [hidx, hline]
    exact drop_take_mid pre e.tok s
  · intro hcase
    unfold errorWindow
    rw [if_pos hcase]
  · intro hcase1 hcase2
    unfold errorWindow
    rw [if_neg hcase1, if_pos hcase2]
    dsimp only
    simp only [maxHead, screenWidth] at hcase1
    simp only [screenWidth]
    omega
  · intro hcase1 hcase2
    unfold errorWindow
    rw [if_neg hcase1, if_neg hcase2]
    exact ⟨rfl, rfl⟩

/-- Witness for C5 at the concrete erroring parse `prog --bad`. -/
theorem c5_caret_under_offending_byte_witness :
    trim (strB ("prog")) ≠ [] ∧
    parse emptyAccu [strB ("prog"), strB ("--bad")] =
      .err c5WitnessErr [strB ("prog"), strB ("--bad")] ∧
    ((c5WitnessErr.line.drop
      (c5WitnessErr.pos + 1 - c5WitnessErr.offInTok)).take
      c5WitnessErr.tok.length = c5WitnessErr.tok ∧
    (errorWindow c5WitnessErr.line.length c5WitnessErr.pos).head =
      c5WitnessErr.pos -
        (errorWindow c5WitnessErr.line.length c5WitnessErr.pos).start) :=
  ⟨by decide, by decide, by
    have := c5_caret_under_offending_byte emptyAccu (strB ("prog"))
      [strB ("--bad")] c5WitnessErr [strB ("prog"), strB ("--bad")]
      (by decide) (by decide)
    exact ⟨this.2.2.1, this.2.2.2.2.1⟩⟩

/-- C5 (counterexample to the claim as stated): when the program-name
token trims to empty, the reconstructed line starts directly with the
offending token (no space separator), yet the caret is still rendered
at column `pos + 1 = 1`: for `["", "--bad"]` the offending token is the
whole line (its first byte is at line index 0), while the caret column
is 1 — one byte to the right of the token's first byte. -/
theorem c5_caret_misses_token_counterexample :
    parse emptyAccu [[], strB ("--bad")] =
      .err c5DegenerateErr [[], strB ("--bad")] ∧
    c5DegenerateErr.line = c5DegenerateErr.tok ∧
    c5DegenerateErr.offInTok = 0 ∧
    c5DegenerateErr.pos + 1 ≠ 0 := by
  refine ⟨by decide, by decide, by decide, by decide⟩

end MonetExplorer
